import Mathlib

set_option linter.unusedVariables false

/-! Formal model of the EndfieldPass pull-history ingestion and pity-statistics
pipeline (src/core/views.py, src/core/services.py), together with theorems
checking the specification's behavioral claims against that model. -/

/-- Subset of Python runtime values that appear in the record dicts the
pipeline manipulates: None, bool, int and str. Floats and nested containers
do not occur in the fields the modelled functions read. -/
inductive PyVal where
  | none : PyVal
  | bool : Bool → PyVal
  | int : Int → PyVal
  | str : String → PyVal
deriving Repr, DecidableEq

/-- Python truthiness for the modelled values. -/
def PyVal.truthy : PyVal → Bool
  | .none => false
  | .bool b => b
  | .int n => n != 0
  | .str s => s != ""

/-- Python `x or y` on modelled values: `x` when truthy, else `y`. -/
def PyVal.orElse (x y : PyVal) : PyVal :=
  if x.truthy then x else y

/-- Python `str(x)` on modelled values. -/
def PyVal.toStr : PyVal → String
  | .none => "None"
  | .bool b => if b then "True" else "False"
  | .int n => toString n
  | .str s => s

/-- Python str.strip() on the code-point list: drop leading and trailing
whitespace. -/
def stripChars (cs : List Char) : List Char :=
  ((cs.dropWhile Char.isWhitespace).reverse.dropWhile Char.isWhitespace).reverse

/-- Python str.strip(), modelled on the code-point list so that it is
kernel-computable. -/
def pyStrip (s : String) : String :=
  (stripChars s.toList).asString

/-- Python str.lower(), modelled per code point (ASCII case mapping; the
strings the pipeline compares case-insensitively are ASCII). -/
def pyLower (s : String) : String :=
  (s.toList.map Char.toLower).asString

/-- Parse a nonempty all-digit character list as a natural number. -/
def parseDigits (cs : List Char) : Option Nat :=
  match cs with
  | [] => Option.none
  | _ =>
    if cs.all (fun c => c.isDigit) then
      Option.some (cs.foldl (fun acc c => acc * 10 + (c.toNat - '0'.toNat)) 0)
    else Option.none

/-- Python int() applied to a string: surrounding whitespace, an optional
sign, then decimal digits (digit-group underscores and non-ASCII digits are
outside the modelled value set). -/
def pyParseInt (s : String) : Option Int :=
  match stripChars s.toList with
  | '+' :: rest => (parseDigits rest).map Int.ofNat
  | '-' :: rest => (parseDigits rest).map (fun n => -(n : Int))
  | cs => (parseDigits cs).map Int.ofNat

/-- Python `int(x)` on modelled values; `none` models a raised TypeError or
ValueError. -/
def pyInt : PyVal → Option Int
  | .none => Option.none
  | .bool b => Option.some (if b then 1 else 0)
  | .int n => Option.some n
  | .str s => pyParseInt s

/-- Model of views._to_int: convert a value to int with a safe fallback. -/
def _to_int (value : PyVal) (default : Int) : Int :=
  (pyInt value).getD default

/-- Model of views._to_bool: convert mixed value types to bool. -/
def _to_bool (value : PyVal) : Bool :=
  match value with
  | .bool b => b
  | .str s =>
    (pyLower (pyStrip s) == "1") || (pyLower (pyStrip s) == "true") ||
      (pyLower (pyStrip s) == "yes") || (pyLower (pyStrip s) == "y")
  | v => v.truthy

/-- Loop of views._pity_counter_until_any: walk the rarities most recent
first, returning the accumulated counter at the first rarity found in
reset_values. -/
def pityScan (reset_values : List Int) : List Int → Int → Int
  | [], counter => counter
  | rarity :: rest, counter =>
    if reset_values.contains rarity then counter
    else pityScan reset_values rest (counter + 1)

/-- Model of views._pity_counter_until_any (the Python set of reset rarities
is represented by a list queried by membership). -/
def _pity_counter_until_any (rarities reset_values : List Int) : Int :=
  pityScan reset_values rarities 0

/-- Model of views._pity_state_with_resets. -/
def _pity_state_with_resets (rarities reset_values : List Int)
    (hard_limit : Int) : Int × Int :=
  let current := _pity_counter_until_any rarities reset_values
  (current, max (hard_limit - current) 0)

/-- Fields of one raw upstream record dict, as read by the pipeline. A field
holds `Option.none` exactly when the dict key is absent, so Python
`key in item` is field presence and `item.get(key)` is the field value with
absence read as None. Keys never read by the modelled functions are omitted
from the model. -/
structure RawItem where
  pool_id : Option PyVal
  poolId : Option PyVal
  pool_name : Option PyVal
  poolName : Option PyVal
  char_id : Option PyVal
  charId : Option PyVal
  char_name : Option PyVal
  charName : Option PyVal
  weapon_id : Option PyVal
  weaponId : Option PyVal
  weapon_name : Option PyVal
  weaponName : Option PyVal
  item_type : Option PyVal
  itemType : Option PyVal
  rarity : Option PyVal
  is_free : Option PyVal
  isFree : Option PyVal
  is_new : Option PyVal
  isNew : Option PyVal
  gacha_ts : Option PyVal
  gachaTs : Option PyVal
  seq_id : Option PyVal
  seqId : Option PyVal
  source_pool_type : Option PyVal
  _source_pool_type : Option PyVal
deriving Repr, DecidableEq

/-- The record dict with no keys set. -/
def RawItem.empty : RawItem :=
  ⟨Option.none, Option.none, Option.none, Option.none, Option.none,
    Option.none, Option.none, Option.none, Option.none, Option.none,
    Option.none, Option.none, Option.none, Option.none, Option.none,
    Option.none, Option.none, Option.none, Option.none, Option.none,
    Option.none, Option.none, Option.none, Option.none, Option.none⟩

/-- Python `item.get(key)`: the stored value, or None when absent. -/
def getv (o : Option PyVal) : PyVal :=
  o.getD PyVal.none

/-- Canonical normalized pull record built by views._normalize_pull_item. -/
structure Pull where
  pool_id : String
  pool_name : String
  char_id : String
  char_name : String
  rarity : Int
  is_free : Bool
  is_new : Bool
  gacha_ts : Option Int
  seq_id : Int
  source_pool_type : String
  item_type : String
  weapon_id : String
  weapon_name : String
deriving Repr, DecidableEq

/-- Python `needle in haystack` on strings: substring containment. -/
def inStr (needle haystack : String) : Bool :=
  decide (List.IsInfix needle.toList haystack.toList)

/-- Model of views._normalize_pull_item. -/
def _normalize_pull_item (item : RawItem) : Pull :=
  let pool_id :=
    (((getv item.pool_id).orElse (getv item.poolId)).orElse (.str "UNKNOWN")).toStr
  let source_pool_type :=
    (((getv item.source_pool_type).orElse
      (getv item._source_pool_type)).orElse (.str "")).toStr
  let weapon_id :=
    (((getv item.weapon_id).orElse (getv item.weaponId)).orElse (.str "")).toStr
  let weapon_name :=
    (((getv item.weapon_name).orElse (getv item.weaponName)).orElse (.str "")).toStr
  let char_id :=
    (((getv item.char_id).orElse (getv item.charId)).orElse (.str weapon_id)).toStr
  let char_name :=
    (((getv item.char_name).orElse (getv item.charName)).orElse (.str weapon_name)).toStr
  let raw_item_type :=
    pyLower (pyStrip ((((getv item.item_type).orElse (getv item.itemType)).orElse
      (.str "")).toStr))
  let source_hint := pyLower source_pool_type
  let pool_hint := pyLower pool_id
  let inferred_item_type :=
    if raw_item_type == "character" || raw_item_type == "weapon" then raw_item_type
    else if weapon_id != "" || weapon_name != "" || inStr "weapon" source_hint ||
        inStr "wepon" pool_hint || inStr "weapon" pool_hint then "weapon"
    else "character"
  { pool_id := pool_id
    pool_name :=
      (((getv item.pool_name).orElse (getv item.poolName)).orElse (.str "")).toStr
    char_id := char_id
    char_name := char_name
    rarity := _to_int (getv item.rarity) 0
    is_free := _to_bool (if item.is_free.isSome then getv item.is_free else getv item.isFree)
    is_new := _to_bool (if item.is_new.isSome then getv item.is_new else getv item.isNew)
    gacha_ts :=
      let ts := _to_int (if item.gacha_ts.isSome then getv item.gacha_ts else getv item.gachaTs) 0
      if ts == 0 then Option.none else Option.some ts
    seq_id := _to_int (if item.seq_id.isSome then getv item.seq_id else getv item.seqId) 0
    source_pool_type := source_pool_type
    item_type := inferred_item_type
    weapon_id := weapon_id
    weapon_name := weapon_name }

/-- The dedupe key string built by the aggregation loop in
views._run_import_session: "pool:seq" when the stripped pool id is nonempty
and the seq id is nonzero, the empty string otherwise. -/
def dedupeKey (normalized : Pull) : String :=
  let seq_id := _to_int (.int normalized.seq_id) 0
  let pool_id := pyStrip normalized.pool_id
  if pool_id != "" && seq_id != 0 then pool_id ++ ":" ++ toString seq_id else ""

/-- The (pool id, seq id) pair the dedupe key encodes, when it is nonempty. -/
def dedupePair (normalized : Pull) : Option (String × Int) :=
  let seq_id := _to_int (.int normalized.seq_id) 0
  let pool_id := pyStrip normalized.pool_id
  if pool_id != "" && seq_id != 0 then Option.some (pool_id, seq_id) else Option.none

/-- Dedup loop of views._run_import_session over the fetched items; the
Python set `seen` of key strings is modelled as a list queried by
membership. -/
def dedupLoop : List RawItem → List String → List Pull
  | [], _ => []
  | item :: rest, seen =>
    let normalized := _normalize_pull_item item
    let key := dedupeKey normalized
    if key != "" && seen.contains key then dedupLoop rest seen
    else normalized :: dedupLoop rest (if key != "" then key :: seen else seen)

/-- Python value stored under gacha_ts in the normalized dict (int or None). -/
def gachaTsVal (p : Pull) : PyVal :=
  match p.gacha_ts with
  | Option.some t => .int t
  | Option.none => .none

/-- Sort key computed by views._run_import_session; Python compares the
tuples lexicographically. -/
def pullSortKey (p : Pull) : Int × Int :=
  (_to_int (gachaTsVal p) 0, _to_int (.int p.seq_id) 0)

/-- Lexicographic tuple comparison, as Python compares int pairs. -/
def keyLe (a b : Int × Int) : Bool :=
  decide (a.1 < b.1) || (decide (a.1 = b.1) && decide (a.2 ≤ b.2))

/-- Python `pulls.sort(key=..., reverse=True)` is a stable descending sort;
`List.mergeSort` with this comparator (the right element's key at most the
left element's key) computes exactly that ordering. -/
def sortPullsDesc (pulls : List Pull) : List Pull :=
  pulls.mergeSort (fun a b => keyLe (pullSortKey b) (pullSortKey a))

/-- Aggregation performed by views._run_import_session on the fetched items:
normalize each record, drop duplicates by (pool id, seq id), then sort most
recent first. -/
def importSessionPulls (items : List RawItem) : List Pull :=
  sortPullsDesc (dedupLoop items [])

/-- Decimal value of a digit character, inverse to Nat.digitChar below 10. -/
def digitVal (c : Char) : Nat :=
  if c = '0' then 0 else if c = '1' then 1 else if c = '2' then 2
  else if c = '3' then 3 else if c = '4' then 4 else if c = '5' then 5
  else if c = '6' then 6 else if c = '7' then 7 else if c = '8' then 8 else 9

/-- Decode a most-significant-first decimal digit list. -/
def decodeDigits (l : List Char) : Nat :=
  l.foldl (fun acc c => acc * 10 + digitVal c) 0

/-- Sample upstream record instantiating the dedup theorems: character pool
"special", sequence id 1. -/
def sampleDup : RawItem :=
  { RawItem.empty with
    poolId := Option.some (.str "special")
    seqId := Option.some (.int 1)
    charName := Option.some (.str "Yvonne")
    rarity := Option.some (.int 6) }

/-- One in-memory import session record of views.IMPORT_SESSIONS. Fields are
the dict keys written by create_session and the background job; all are
present because create_session stores the full dict before the job runs. -/
structure SessionRec where
  id : Int
  created_at : String
  token : String
  server_id : String
  lang : String
  page_url : String
  import_kind : String
  selected_pool_id : String
  status : String
  error : String
  pulls : List Pull
deriving Repr, DecidableEq

/-- One entry of views.IMPORT_PROGRESS: the mutable progress dict holds
exactly the fields set so far. -/
structure ProgressRec where
  status : Option String
  progress : Option Int
  message : Option String
  error : Option String
deriving Repr, DecidableEq

/-- Progress entry before any _set_progress call (the empty dict default). -/
def ProgressRec.empty : ProgressRec :=
  ⟨Option.none, Option.none, Option.none, Option.none⟩

/-- The two process-global stores guarded by IMPORT_PROGRESS_LOCK, as one
state value: dict lookup becomes function application, and a missing
progress key reads as the empty dict. Mutation under the lock plus
deep-copying reads are modelled by pure state passing. -/
structure ImportState where
  sessions : Int → Option SessionRec
  progress : Int → ProgressRec

/-- Model of views._set_progress: merge the provided fields, clamping the
progress percentage into 0..100. -/
def _set_progress (st : ImportState) (session_id : Int) (status : Option String)
    (progressValue : Option Int) (message : Option String)
    (error : Option String) : ImportState :=
  let state := st.progress session_id
  let state := match status with
    | Option.some v => { state with status := Option.some v }
    | Option.none => state
  let state := match progressValue with
    | Option.some v => { state with progress := Option.some (max 0 (min 100 v)) }
    | Option.none => state
  let state := match message with
    | Option.some v => { state with message := Option.some v }
    | Option.none => state
  let state := match error with
    | Option.some v => { state with error := Option.some v }
    | Option.none => state
  { st with progress := fun i => if i = session_id then state else st.progress i }

/-- Values returned by views._get_progress (error defaults to ""). -/
structure ProgressView where
  status : Option String
  progress : Option Int
  message : Option String
  error : String
deriving Repr, DecidableEq

/-- Model of views._get_progress. -/
def _get_progress (st : ImportState) (session_id : Int) : ProgressView :=
  let state := st.progress session_id
  ⟨state.status, state.progress, state.message, state.error.getD ""⟩

/-- Model of views._get_import_session (deep copy is identity on values). -/
def _get_import_session (st : ImportState) (session_id : Int) : Option SessionRec :=
  st.sessions session_id

/-- Model of views._set_import_session for the updates the background job
performs: merge status, error and pulls into the stored session. The Python
upsert-from-empty-dict branch is unreachable on the modelled paths: the job
runs only after create_session stored the full record and nothing deletes
sessions. -/
def _set_import_session (st : ImportState) (session_id : Int) (status : String)
    (error : String) (pulls : List Pull) : ImportState :=
  match st.sessions session_id with
  | Option.some session =>
    { st with sessions := fun i => if i = session_id then
        Option.some { session with status := status, error := error, pulls := pulls }
      else st.sessions i }
  | Option.none => st

/-- Background job views._run_import_session, with its two fetch_all_records
calls abstracted by their combined outcome: Except.error msg is an exception
escaping the fetch phase with text msg, Except.ok (chars, weapons) the two
returned record lists. The per-pool progress-callback updates fired during
the fetch are elided: every progress field they touch is overwritten by the
final updates modelled here, so the job's final state is unchanged.
Localized message strings are kept as their localization keys. -/
def _run_import_session (st : ImportState) (session_id : Int)
    (fetched : Except String (List RawItem × List RawItem)) : ImportState :=
  match _get_import_session st session_id with
  | Option.none => st
  | Option.some _session =>
    let st := _set_progress st session_id (Option.some "running") (Option.some 3)
      (Option.some "import.loading.prepare") Option.none
    match fetched with
    | Except.error exc =>
      let st := _set_import_session st session_id "error" exc []
      _set_progress st session_id (Option.some "error") (Option.some 100)
        (Option.some "view.settings.import_error") (Option.some exc)
    | Except.ok (character_items, weapon_items) =>
      let items := character_items ++ weapon_items
      let pulls := importSessionPulls items
      let st := _set_progress st session_id (Option.some "running") (Option.some 92)
        (Option.some "import.loading.hint3") Option.none
      let st := if pulls.length != 0 then
          _set_progress st session_id (Option.some "running") (Option.some 99)
            (Option.some "import.error.processing") Option.none
        else st
      let st := _set_import_session st session_id "done" "" pulls
      _set_progress st session_id (Option.some "done") (Option.some 100)
        (Option.some "view.settings.import_done") Option.none

/-- JSON body of views.import_status. -/
structure StatusResponse where
  session_id : Int
  status : String
  progress : Int
  message : String
  error : String
  pull_count : Nat
deriving Repr, DecidableEq

/-- Model of views.import_status; Option.none is the 404 invalid-session
response. The translated processing-fallback message is kept as its
localization key. -/
def import_status (st : ImportState) (session_id : Int) : Option StatusResponse :=
  match _get_import_session st session_id with
  | Option.none => Option.none
  | Option.some session =>
    let progress_state := _get_progress st session_id
    let progress :=
      match progress_state.progress with
      | Option.none =>
        if session.status = "done" || session.status = "error" then (100 : Int) else 0
      | Option.some v => v
    let progress := if session.status = "done" then (100 : Int) else progress
    let message :=
      match progress_state.message with
      | Option.some m => if m != "" then m else "import.error.processing"
      | Option.none => "import.error.processing"
    Option.some
      { session_id := session_id
        status := if session.status != "" then session.status else "running"
        progress := progress
        message := message
        error := session.error
        pull_count := session.pulls.length }

/-- Sample stored session instantiating the state theorems. -/
def sampleSession : SessionRec :=
  { id := 1, created_at := "2026-02-01T12:00:00+00:00", token := "t",
    server_id := "3", lang := "ru-ru", page_url := "", import_kind := "character",
    selected_pool_id := "", status := "running", error := "", pulls := [] }

/-- Sample state holding only sampleSession under id 1, with no progress. -/
def sampleState : ImportState :=
  { sessions := fun i => if i = 1 then Option.some sampleSession else Option.none
    progress := fun _ => ProgressRec.empty }

/-- Sample session already marked done with one stored pull. -/
def sampleDoneSession : SessionRec :=
  { sampleSession with status := "done", pulls := [_normalize_pull_item sampleDup] }

/-- Sample state holding the done session, with no recorded progress. -/
def sampleDoneState : ImportState :=
  { sessions := fun i => if i = 1 then Option.some sampleDoneSession else Option.none
    progress := fun _ => ProgressRec.empty }

/-- One upstream page response as the fetch loops in services.py read it:
HTTP status code, embedded payload code, the record list (payload data.list,
a missing or falsy value reading as the empty list) and the hasMore flag. A
malformed body is representable as a nonzero embedded code. -/
structure PageResponse where
  status_code : Int
  code : Int
  list : List RawItem
  hasMore : Bool

/-- Body of the per-page item loop in services.fetch_character_pages: keep
each item whose raw seqId is truthy and unseen, tag it with the source pool
type, and append it. The Python set of seen seqId values is a list queried
by membership. -/
def charPageCollect (pool_type : String) :
    List RawItem → List PyVal → List RawItem → List PyVal × List RawItem
  | [], seen, out => (seen, out)
  | item :: rest, seen, out =>
    let sequence_id := getv item.seqId
    if sequence_id.truthy && !(seen.contains sequence_id) then
      charPageCollect pool_type rest (sequence_id :: seen)
        (out ++ [{ item with _source_pool_type := Option.some (.str pool_type) }])
    else charPageCollect pool_type rest seen out

/-- Raw seqId of the last record of a page, as the pagination cursor reads
items[-1].get("seqId"). The empty-page value None is never read because an
empty page already ended the loop. -/
def lastSeqId (items : List RawItem) : PyVal :=
  match items.getLast? with
  | Option.some item => getv item.seqId
  | Option.none => PyVal.none

/-- Pagination loop of services.fetch_character_pages. The upstream is a
function from 0-based request index to the page response; fuel bounds the
recursion so the model is total. Fuel exhaustion returns Option.none and
never occurs once some page satisfies a stop condition (theorem C7). The
inter-page sleep has no observable effect in the model. Returns the
accumulated records and the number of page requests issued. -/
def fetchCharPagesLoop (upstream : Nat → PageResponse) (pool_type : String) :
    Nat → Nat → List PyVal → List RawItem → Option (List RawItem × Nat)
  | 0, _, _, _ => Option.none
  | fuel + 1, idx, seen, out =>
    let response := upstream idx
    if response.status_code != 200 then Option.some (out, idx + 1)
    else if response.code != 0 then Option.some (out, idx + 1)
    else if response.list.isEmpty then Option.some (out, idx + 1)
    else
      let collected := charPageCollect pool_type response.list seen out
      if !response.hasMore then Option.some (collected.2, idx + 1)
      else if !(lastSeqId response.list).truthy then Option.some (collected.2, idx + 1)
      else fetchCharPagesLoop upstream pool_type fuel (idx + 1) collected.1 collected.2

/-- Model of services.fetch_character_pages over an abstract upstream. -/
def fetch_character_pages (upstream : Nat → PageResponse) (pool_type : String)
    (fuel : Nat) : Option (List RawItem × Nat) :=
  fetchCharPagesLoop upstream pool_type fuel 0 [] []

/-- A page satisfies the stop condition exactly when the loop returns on it:
non-200 HTTP status, nonzero embedded code, empty record list, hasMore
false, or a last record without a truthy seqId. -/
def pageStops (r : PageResponse) : Bool :=
  r.status_code != 200 || r.code != 0 || r.list.isEmpty || !r.hasMore ||
    !(lastSeqId r.list).truthy

/-- Model of services.WEAPON_SOURCE_POOL_TYPE. -/
def WEAPON_SOURCE_POOL_TYPE : String := "E_WeaponGachaPoolType_Weapon"

/-- Body of the per-page item loop in services.fetch_weapon_pages: dedupe by
the "pool:seq" string when a seq id is present; a record lacking one gets an
empty key and is always kept. Every kept item is tagged with the weapon
source pool type. -/
def weaponPageCollect (pool_id : String) :
    List RawItem → List String → List RawItem → List String × List RawItem
  | [], seen, out => (seen, out)
  | item :: rest, seen, out =>
    let sequence_id := pyStrip ((getv item.seqId).orElse (.str "")).toStr
    let item_pool_id := pyStrip ((getv item.poolId).orElse (.str pool_id)).toStr
    let dedupe_key :=
      if sequence_id != "" then item_pool_id ++ ":" ++ sequence_id else ""
    if dedupe_key != "" && seen.contains dedupe_key then
      weaponPageCollect pool_id rest seen out
    else
      weaponPageCollect pool_id rest
        (if dedupe_key != "" then dedupe_key :: seen else seen)
        (out ++ [{ item with _source_pool_type := Option.some (.str WEAPON_SOURCE_POOL_TYPE) }])

/-- Record fetched from a character pool that lacks any seqId key. -/
def noSeqItem : RawItem :=
  { RawItem.empty with
    poolId := Option.some (.str "special")
    charName := Option.some (.str "Alesh")
    rarity := Option.some (.int 5) }

/-- Upstream returning a single page holding only noSeqItem. -/
def noSeqUpstream : Nat → PageResponse :=
  fun _ => { status_code := 200, code := 0, list := [noSeqItem], hasMore := false }

/-- Second sample record: pool "special", sequence id 2. -/
def sampleDup2 : RawItem :=
  { RawItem.empty with
    poolId := Option.some (.str "special")
    seqId := Option.some (.int 2) }

/-- Upstream with one full page (hasMore true) and a second page answering
hasMore false: the fetch must issue exactly two requests. -/
def twoPageUpstream : Nat → PageResponse :=
  fun idx =>
    if idx = 0 then
      { status_code := 200, code := 0, list := [sampleDup], hasMore := true }
    else
      { status_code := 200, code := 0, list := [sampleDup2], hasMore := false }

/-- JSON values, as the import payload parser sees them after json.loads. -/
inductive JVal where
  | null : JVal
  | bool : Bool → JVal
  | int : Int → JVal
  | str : String → JVal
  | arr : List JVal → JVal
  | obj : List (String × JVal) → JVal

/-- Python dict.get on a JSON object (keys are unique in parsed JSON). -/
def jGet (kvs : List (String × JVal)) (k : String) : Option JVal :=
  (kvs.find? (fun kv => kv.1 == k)).map Prod.snd

/-- Python truthiness of a JSON value. -/
def jTruthy : JVal → Bool
  | .null => false
  | .bool b => b
  | .int n => n != 0
  | .str s => s != ""
  | .arr l => !l.isEmpty
  | .obj kvs => !kvs.isEmpty

/-- Python `x or y` on JSON values. -/
def jOr (x y : JVal) : JVal :=
  if jTruthy x then x else y

/-- Model of views._build_session_payloads: the new schema's sessions list,
or a single synthetic done-session wrapping a legacy items list, or None
when neither key holds a list. -/
def _build_session_payloads (payload : List (String × JVal)) : Option (List JVal) :=
  match jGet payload "sessions" with
  | Option.some (JVal.arr sessions) => Option.some sessions
  | _ =>
    match jGet payload "items" with
    | Option.some (JVal.arr items) =>
      Option.some [JVal.obj
        [("server_id", jOr ((jGet payload "server_id").getD JVal.null) (.str "3")),
          ("lang", jOr ((jGet payload "lang").getD JVal.null) (.str "ru-ru")),
          ("status", .str "done"),
          ("pulls", JVal.arr items)]]
    | _ => Option.none

/-- Model of views._import_history_payload: validate the payload shape and
count sessions and dict-shaped pulls. The Python function performs no
store or database write whatsoever (its docstring: return counters without
writing DB); Except.error carries the ValueError message key. -/
def _import_history_payload (payload : JVal) : Except String (Nat × Nat) :=
  match payload with
  | JVal.obj kvs =>
    match _build_session_payloads kvs with
    | Option.none => Except.error "view.error.bad_format"
    | Option.some sessions_payload =>
      Except.ok (sessions_payload.foldl (fun acc session_payload =>
        match session_payload with
        | JVal.obj skvs =>
          let pulls_payload :=
            match jGet skvs "pulls" with
            | Option.some (JVal.arr pulls) => Option.some pulls
            | _ =>
              match jGet skvs "items" with
              | Option.some (JVal.arr pulls) => Option.some pulls
              | _ => Option.none
          match pulls_payload with
          | Option.some pulls =>
            (acc.1 + 1, acc.2 + pulls.countP (fun item =>
              match item with
              | JVal.obj _ => true
              | _ => false))
          | Option.none => (acc.1 + 1, acc.2)
        | _ => acc) (0, 0))
  | _ => Except.error "view.error.bad_payload"

/-- The exact import payload named by claim C3. -/
def payloadC3 : JVal :=
  JVal.obj
    [("schema_version", .int 1),
      ("sessions", JVal.arr
        [JVal.obj
          [("server_id", .str "4"),
            ("lang", .str "en-us"),
            ("status", .str "done"),
            ("pulls", JVal.arr
              [JVal.obj
                [("pool_id", .str "standard"),
                  ("char_name", .str "Bob"),
                  ("rarity", .int 5),
                  ("seq_id", .int 2)]])]])]

/-- Static character record as the Stats Engine consumes it: code, display
name, aliases (including per-language official names) and icon URL. -/
structure SChar where
  code : String
  name : String
  aliases : List String
  icon_url : String
deriving Repr, DecidableEq

/-- Banner as the Stats Engine consumes it: pool id of the pattern
special_major_minor_n, and the banner's top character. -/
structure SBanner where
  pool_id : String
  top : SChar
deriving Repr, DecidableEq

/-- Python str.lower() per code point for the scripts appearing in the
character-name data: ASCII, and the Cyrillic block (А..Я gain 0x20, Ё maps
to ё); the remaining scripts in the data (Han ideographs, kana) are
caseless, so lower() leaves them unchanged. -/
def pyCharLower (c : Char) : Char :=
  if 0x410 ≤ c.toNat && c.toNat ≤ 0x42F then Char.ofNat (c.toNat + 0x20)
  else if c.toNat = 0x401 then Char.ofNat 0x451
  else c.toLower

/-- Unicode-aware lowercasing of a whole string. -/
def pyLowerUnicode (s : String) : String :=
  (s.toList.map pyCharLower).asString

/-- Word character in the sense of Python's regex \w with re.UNICODE, on
the scripts the repository's character names, aliases and official
localized names use: ASCII alphanumerics and underscore, Cyrillic letters,
hiragana and katakana letters (the katakana middle dot U+30FB is
punctuation and thus not a word character), and Han ideographs. -/
def pyIsWordChar (c : Char) : Bool :=
  c = '_' || c.isAlphanum ||
    (0x400 ≤ c.toNat && c.toNat ≤ 0x4FF) ||
    (0x3041 ≤ c.toNat && c.toNat ≤ 0x3096) ||
    (0x30A1 ≤ c.toNat && c.toNat ≤ 0x30FA) ||
    (0x30FC ≤ c.toNat && c.toNat ≤ 0x30FE) ||
    (0x4E00 ≤ c.toNat && c.toNat ≤ 0x9FFF)

/-- Model of views._normalize_character_key: strip, lowercase (with the
Unicode case mapping above), then remove every run matched by the regex
class [\W_]+, i.e. keep exactly the word characters other than the
underscore. -/
def _normalize_character_key (value : String) : String :=
  ((pyLowerUnicode (pyStrip value)).toList.filter
    (fun c => pyIsWordChar c && c != '_')).asString

/-- Modelled from the spec: character identity matching of section 4.5b —
case-insensitive, punctuation-stripped comparison of the pull's character
name against the character's name and all known aliases (an empty
normalized key never matches, as in views._build_character_obtained_map). -/
def charMatch (c : SChar) (pull_name : String) : Bool :=
  let key := _normalize_character_key pull_name
  key != "" && ((c.name :: c.aliases).map _normalize_character_key).contains key

/-- Split a character list on a separator character. -/
def splitOnChar (sep : Char) : List Char → List (List Char)
  | [] => [[]]
  | c :: rest =>
    let r := splitOnChar sep rest
    if c = sep then [] :: r
    else
      match r with
      | [] => [[c]]
      | g :: gs => (c :: g) :: gs

/-- Modelled from the spec: parse a banner pool id of the form
special_<major>_<minor>_<n>. -/
def parseSpecialPool (pool_id : String) : Option (Nat × Nat × Nat) :=
  match splitOnChar '_' pool_id.toList with
  | [tag, a, b, c] =>
    if tag = "special".toList then
      match parseDigits a, parseDigits b, parseDigits c with
      | Option.some x, Option.some y, Option.some z => Option.some (x, y, z)
      | _, _, _ => Option.none
    else Option.none
  | _ => Option.none

/-- One row of the version top-character statistics. -/
structure TopStatRow where
  character_code : String
  character_name : String
  icon_url : String
  drop_count : Nat
  current_banner_drop_count : Nat
  share_percent : Rat
deriving Repr, DecidableEq

/-- Version top-character statistics payload. -/
structure VersionTopStats where
  version_label : String
  total_top_drops : Nat
  tracked_characters_count : Nat
  stats : List TopStatRow
deriving Repr, DecidableEq

/-- Banners whose pool id parses as special_major_minor_n, each paired with
its parsed version triple, in catalog order. -/
def parsedBanners (banners : List SBanner) :
    List ((Nat × Nat × Nat) × SBanner) :=
  banners.filterMap
    (fun b => (parseSpecialPool b.pool_id).map (fun v => (v, b)))

/-- One step of the latest-version fold: lexicographic maximum on the
(major, minor) pair. -/
def latestStep (acc : Nat × Nat) (vb : (Nat × Nat × Nat) × SBanner) :
    Nat × Nat :=
  if acc.1 < vb.1.1 || (acc.1 == vb.1.1 && acc.2 < vb.1.2.1) then
    (vb.1.1, vb.1.2.1)
  else acc

/-- Latest (major, minor) version among the parsed banners. -/
def latestVersion (first : (Nat × Nat × Nat) × SBanner)
    (restP : List ((Nat × Nat × Nat) × SBanner)) : Nat × Nat :=
  restP.foldl latestStep (first.1.1, first.1.2.1)

/-- Does a pool id belong to the given (major, minor) version? -/
def inVersion (latest : Nat × Nat) (pid : String) : Bool :=
  match parseSpecialPool pid with
  | Option.some v => v.1 == latest.1 && v.2.1 == latest.2
  | Option.none => false

/-- The parsed banners of version (M, m), in catalog order. -/
def versionBanners (banners : List SBanner) (M m : Nat) :
    List ((Nat × Nat × Nat) × SBanner) :=
  (parsedBanners banners).filter (fun vb => vb.1.1 == M && vb.1.2.1 == m)

/-- Insert into a list kept ordered by the given comparison. -/
def insertSorted (le : α → α → Bool) (x : α) : List α → List α
  | [] => [x]
  | y :: rest => if le x y then x :: y :: rest else y :: insertSorted le x rest

/-- Insertion sort by the given comparison (stable, like Python's sort). -/
def sortWith (le : α → α → Bool) (l : List α) : List α :=
  l.foldr (insertSorted le) []

/-- Ascending comparison of parsed banners by pool sequence number. -/
def seqLe (x y : (Nat × Nat × Nat) × SBanner) : Bool :=
  decide (x.1.2.2 ≤ y.1.2.2)

/-- Descending comparison of stat rows by drop count. -/
def dropsGe (a b : TopStatRow) : Bool :=
  decide (b.drop_count ≤ a.drop_count)

/-- Sort parsed banners ascending by pool sequence number. -/
def sortBySeq (l : List ((Nat × Nat × Nat) × SBanner)) :
    List ((Nat × Nat × Nat) × SBanner) :=
  sortWith seqLe l

/-- Sort stat rows descending by drop count. -/
def sortByDrops (l : List TopStatRow) : List TopStatRow :=
  sortWith dropsGe l

/-- Row built for one tracked banner: the drop count version-wide and the
count restricted to the banner's own pool; share filled in later. -/
def statRowOf (latest : Nat × Nat) (pulls : List Pull)
    (vb : (Nat × Nat × Nat) × SBanner) : TopStatRow :=
  { character_code := vb.2.top.code
    character_name := vb.2.top.name
    icon_url := vb.2.top.icon_url
    drop_count := pulls.countP
      (fun p => inVersion latest p.pool_id && charMatch vb.2.top p.char_name)
    current_banner_drop_count := pulls.countP
      (fun p => (p.pool_id == vb.2.pool_id) && charMatch vb.2.top p.char_name)
    share_percent := 0 }

/-- Fill in each row's drop share as an exact rational percentage of the
grand total (0 when the total is 0). -/
def shareRows (total : Nat) (rows : List TopStatRow) : List TopStatRow :=
  rows.map (fun r =>
    { r with share_percent :=
        if total == 0 then 0 else (r.drop_count : Rat) / (total : Rat) * 100 })

/-- Stats computation for a fixed latest version and its banner list: track
at most the first three banners by pool sequence number, build their rows,
total them, fill in shares, and order the rows by descending drop count. -/
def computeStats (latest : Nat × Nat)
    (version_banners : List ((Nat × Nat × Nat) × SBanner))
    (pulls : List Pull) (tracked_characters_count : Nat) : VersionTopStats :=
  let tracked := (sortBySeq version_banners).take 3
  let rows := tracked.map (statRowOf latest pulls)
  let total := rows.foldl (fun acc r => acc + r.drop_count) 0
  { version_label := toString latest.1 ++ "." ++ toString latest.2
    total_top_drops := total
    tracked_characters_count := tracked_characters_count
    stats := sortByDrops (shareRows total rows) }

/-- Modelled from the spec: views._compute_version_top_stats_from_pulls of
the durable-storage variant is missing from src/ (src/core/tests.py imports
it from .views, which does not define it), so the computation is modelled
from spec section 4.5b: find the latest (major, minor) version that has a
banner, track at most the first three of its banners ordered by pool
sequence number, count each tracked top character's drops across all pulls
whose pool id belongs to that version (plus the count restricted to the
character's own banner pool), and emit rows ordered by descending drop
count with share_percent = drop_count / total_top_drops * 100 (exact
rational; 0 when the total is 0). Returns Option.none when no banner pool
id parses to a version. -/
def _compute_version_top_stats_from_pulls (banners : List SBanner)
    (pulls : List Pull) (tracked_characters_count : Nat) :
    Option VersionTopStats :=
  match parsedBanners banners with
  | [] => Option.none
  | first :: restP =>
    let latest := latestVersion first restP
    Option.some (computeStats latest
      ((first :: restP).filter
        (fun vb => vb.1.1 == latest.1 && vb.1.2.1 == latest.2))
      pulls tracked_characters_count)

/-- Character pull tagged with a banner pool id, as the stats scenarios
build them. -/
def statPull (pool char_name : String) : Pull :=
  { pool_id := pool, pool_name := "", char_id := "", char_name := char_name,
    rarity := 6, is_free := false, is_new := false, gacha_ts := Option.none,
    seq_id := 0, source_pool_type := "", item_type := "character",
    weapon_id := "", weapon_name := "" }

/-- Concrete character instantiating the version-stats theorem, with the
repository's Cyrillic display name and Latin alias. -/
def yvonneChar : SChar :=
  { code := "yvonne", name := "Ивонна", aliases := ["Yvonne"],
    icon_url := "img/characters/yvonne.png" }

/-- Second concrete character. -/
def laevatainChar : SChar :=
  { code := "laevatain", name := "Лэватейн", aliases := ["Laevatain"],
    icon_url := "img/characters/laevatain.png" }

/-- Third concrete character. -/
def emberChar : SChar :=
  { code := "ember", name := "Эмбер", aliases := ["Ember"],
    icon_url := "img/characters/ember.png" }

/-- Fourth concrete character. -/
def gilbertaChar : SChar :=
  { code := "gilberta", name := "Гилберта", aliases := ["Gilberta"],
    icon_url := "img/characters/gilberta.png" }

/-- Fifth concrete character, top of an older-version banner. -/
def perlicaChar : SChar :=
  { code := "perlica", name := "Перлика", aliases := ["Perlica"],
    icon_url := "img/characters/perlica.png" }

/-- Concrete banner catalog: one banner of the older version 1.0 and four
banners of the latest version 1.2. -/
def witnessCatalog : List SBanner :=
  [{ pool_id := "special_1_0_1", top := perlicaChar },
   { pool_id := "special_1_2_1", top := yvonneChar },
   { pool_id := "special_1_2_2", top := laevatainChar },
   { pool_id := "special_1_2_3", top := emberChar },
   { pool_id := "special_1_2_4", top := gilbertaChar }]

/-- Concrete extra pulls on the older version's pool. -/
def witnessOtherPulls : List Pull :=
  [statPull "special_1_0_1" "Перлика"]

theorem toDigitsCore_append (b : Nat) :
    ∀ (f n : Nat) (ds : List Char),
      Nat.toDigitsCore b f n ds = Nat.toDigitsCore b f n [] ++ ds := by
  intro f
  induction f with
  | zero => intro n ds; simp [Nat.toDigitsCore]
  | succ f ih =>
    intro n ds
    simp only [Nat.toDigitsCore]
    by_cases h : n / b = 0
    · simp [h]
    · simp only [h, if_false]
      rw [ih (n / b) ((n % b).digitChar :: ds), ih (n / b) [(n % b).digitChar]]
      simp

theorem digitChar_ge16 (m : Nat) (h : 16 ≤ m) : Nat.digitChar m = '*' := by
  have h0 : ¬ m = 0 := by omega
  have h1 : ¬ m = 1 := by omega
  have h2 : ¬ m = 2 := by omega
  have h3 : ¬ m = 3 := by omega
  have h4 : ¬ m = 4 := by omega
  have h5 : ¬ m = 5 := by omega
  have h6 : ¬ m = 6 := by omega
  have h7 : ¬ m = 7 := by omega
  have h8 : ¬ m = 8 := by omega
  have h9 : ¬ m = 9 := by omega
  have h10 : ¬ m = 10 := by omega
  have h11 : ¬ m = 11 := by omega
  have h12 : ¬ m = 12 := by omega
  have h13 : ¬ m = 13 := by omega
  have h14 : ¬ m = 14 := by omega
  have h15 : ¬ m = 15 := by omega
  simp [Nat.digitChar, h0, h1, h2, h3, h4, h5, h6, h7, h8, h9, h10,
    h11, h12, h13, h14, h15]

theorem digitChar_ne_colon (m : Nat) : Nat.digitChar m ≠ ':' := by
  rcases Nat.lt_or_ge m 16 with h | h
  · interval_cases m <;> decide
  · rw [digitChar_ge16 m h]
    decide

theorem digitChar_ne_minus (m : Nat) : Nat.digitChar m ≠ '-' := by
  rcases Nat.lt_or_ge m 16 with h | h
  · interval_cases m <;> decide
  · rw [digitChar_ge16 m h]
    decide

theorem toDigitsCore_chars (b : Nat) :
    ∀ (f n : Nat) (ds : List Char) (c : Char),
      c ∈ Nat.toDigitsCore b f n ds → c ∈ ds ∨ ∃ m, c = Nat.digitChar m := by
  intro f
  induction f with
  | zero => intro n ds c hc; simp [Nat.toDigitsCore] at hc; exact Or.inl hc
  | succ f ih =>
    intro n ds c hc
    simp only [Nat.toDigitsCore] at hc
    by_cases h : n / b = 0
    · simp only [h, if_true, List.mem_cons] at hc
      rcases hc with h1 | h1
      · exact Or.inr ⟨n % b, h1⟩
      · exact Or.inl h1
    · simp only [h, if_false] at hc
      rcases ih (n / b) ((n % b).digitChar :: ds) c hc with h1 | h1
      · rcases List.mem_cons.mp h1 with h2 | h2
        · exact Or.inr ⟨n % b, h2⟩
        · exact Or.inl h2
      · exact h1.elim (fun m hm => Or.inr ⟨m, hm⟩)

theorem natRepr_chars (n : Nat) (c : Char) (hc : c ∈ (Nat.repr n).data) :
    ∃ m, c = Nat.digitChar m := by
  have h : c ∈ Nat.toDigitsCore 10 (n + 1) n [] := hc
  rcases toDigitsCore_chars 10 (n + 1) n [] c h with h1 | h1
  · simp at h1
  · exact h1

theorem colon_not_mem_natRepr (n : Nat) : ':' ∉ (Nat.repr n).data := by
  intro hc
  rcases natRepr_chars n ':' hc with ⟨m, hm⟩
  exact digitChar_ne_colon m hm.symm

theorem minus_not_mem_natRepr (n : Nat) : '-' ∉ (Nat.repr n).data := by
  intro hc
  rcases natRepr_chars n '-' hc with ⟨m, hm⟩
  exact digitChar_ne_minus m hm.symm

theorem digitVal_digitChar (m : Nat) (hm : m < 10) :
    digitVal (Nat.digitChar m) = m := by
  interval_cases m <;> rfl

theorem decode_toDigitsCore :
    ∀ (f n : Nat), n < f → decodeDigits (Nat.toDigitsCore 10 f n []) = n := by
  intro f
  induction f with
  | zero => intro n hn; omega
  | succ f ih =>
    intro n hn
    simp only [Nat.toDigitsCore]
    by_cases h : n / 10 = 0
    · have hlt : n % 10 < 10 := Nat.mod_lt _ (by omega)
      simp only [h, if_true]
      show 0 * 10 + digitVal (n % 10).digitChar = n
      rw [digitVal_digitChar _ hlt]
      omega
    · simp only [h, if_false]
      rw [toDigitsCore_append 10 f (n / 10) [(n % 10).digitChar]]
      show List.foldl _ 0 (_ ++ [(n % 10).digitChar]) = n
      rw [List.foldl_append]
      have hdiv : n / 10 < f := by omega
      have hrec := ih (n / 10) hdiv
      show decodeDigits (Nat.toDigitsCore 10 f (n / 10) []) * 10 +
        digitVal (n % 10).digitChar = n
      rw [hrec, digitVal_digitChar _ (Nat.mod_lt _ (by omega))]
      omega

theorem natRepr_inj (m n : Nat) (h : Nat.repr m = Nat.repr n) : m = n := by
  have hd : Nat.toDigitsCore 10 (m + 1) m [] = Nat.toDigitsCore 10 (n + 1) n [] :=
    congrArg String.data h
  have h1 := decode_toDigitsCore (m + 1) m (by omega)
  have h2 := decode_toDigitsCore (n + 1) n (by omega)
  rw [hd] at h1
  omega

theorem intToString_eq_cases (i : Int) :
    (∃ m : Nat, i = Int.ofNat m ∧ toString i = Nat.repr m) ∨
      (∃ m : Nat, i = Int.negSucc m ∧ toString i = "-" ++ Nat.repr (m + 1)) := by
  cases i with
  | ofNat m => exact Or.inl ⟨m, rfl, rfl⟩
  | negSucc m => exact Or.inr ⟨m, rfl, rfl⟩

theorem colon_not_mem_intToString (i : Int) : ':' ∉ (toString i).data := by
  rcases intToString_eq_cases i with ⟨m, _, hm⟩ | ⟨m, _, hm⟩
  · rw [hm]; exact colon_not_mem_natRepr m
  · rw [hm, String.data_append]
    intro hc
    rcases List.mem_append.mp hc with h1 | h1
    · simp at h1
    · exact colon_not_mem_natRepr (m + 1) h1

theorem intToString_inj (i j : Int) (h : toString i = toString j) : i = j := by
  rcases intToString_eq_cases i with ⟨m, him, hm⟩ | ⟨m, him, hm⟩ <;>
    rcases intToString_eq_cases j with ⟨n, hjn, hn⟩ | ⟨n, hjn, hn⟩
  · rw [him, hjn]
    rw [hm, hn] at h
    exact congrArg Int.ofNat (natRepr_inj m n h)
  · exfalso
    rw [hm, hn] at h
    have hd := congrArg String.data h
    rw [String.data_append] at hd
    have : '-' ∈ (Nat.repr m).data := by
      rw [hd]; exact List.mem_append.mpr (Or.inl (by decide))
    exact minus_not_mem_natRepr m this
  · exfalso
    rw [hm, hn] at h
    have hd := congrArg String.data h
    rw [String.data_append] at hd
    have : '-' ∈ (Nat.repr n).data := by
      rw [← hd]; exact List.mem_append.mpr (Or.inl (by decide))
    exact minus_not_mem_natRepr n this
  · rw [him, hjn]
    rw [hm, hn] at h
    have hd := congrArg String.data h
    rw [String.data_append, String.data_append] at hd
    have htail : (Nat.repr (m + 1)).data = (Nat.repr (n + 1)).data :=
      List.append_cancel_left hd
    have := natRepr_inj (m + 1) (n + 1) (String.ext htail)
    exact congrArg Int.negSucc (by omega)

theorem append_sep_inj (sep : Char) :
    ∀ (a1 a2 b1 b2 : List Char), sep ∉ b1 → sep ∉ b2 →
      a1 ++ sep :: b1 = a2 ++ sep :: b2 → a1 = a2 ∧ b1 = b2 := by
  intro a1
  induction a1 with
  | nil =>
    intro a2 b1 b2 h1 h2 h
    cases a2 with
    | nil => simpa using h
    | cons y ys =>
      exfalso
      simp only [List.nil_append, List.cons_append, List.cons.injEq] at h
      exact h1 (h.2 ▸ List.mem_append.mpr (Or.inr (List.mem_cons_self _ _)))
  | cons x xs ih =>
    intro a2 b1 b2 h1 h2 h
    cases a2 with
    | nil =>
      exfalso
      simp only [List.nil_append, List.cons_append, List.cons.injEq] at h
      exact h2 (h.2.symm ▸ List.mem_append.mpr (Or.inr (List.mem_cons_self _ _)))
    | cons y ys =>
      simp only [List.cons_append, List.cons.injEq] at h
      obtain ⟨hxy, htl⟩ := h
      obtain ⟨ha, hb⟩ := ih ys b1 b2 h1 h2 htl
      exact ⟨by rw [hxy, ha], hb⟩

theorem keyString_inj (p1 p2 : String) (s1 s2 : Int)
    (h : p1 ++ ":" ++ toString s1 = p2 ++ ":" ++ toString s2) :
    p1 = p2 ∧ s1 = s2 := by
  have hd := congrArg String.data h
  rw [String.data_append, String.data_append, String.data_append,
    String.data_append] at hd
  have h3 : p1.data ++ ':' :: (toString s1).data =
      p2.data ++ ':' :: (toString s2).data := by
    simpa using hd
  obtain ⟨hp, hs⟩ := append_sep_inj ':' p1.data p2.data _ _
    (colon_not_mem_intToString s1) (colon_not_mem_intToString s2) h3
  exact ⟨String.ext hp, intToString_inj _ _ (String.ext hs)⟩

theorem keyString_ne_empty (p : String) (s : Int) :
    p ++ ":" ++ toString s ≠ "" := by
  intro h
  have hd := congrArg String.data h
  rw [String.data_append, String.data_append] at hd
  simp at hd

theorem dedupePair_eq_iff_key (q : Pull) (p : String) (s : Int) :
    dedupePair q = Option.some (p, s) ↔
      dedupeKey q = p ++ ":" ++ toString s := by
  simp only [dedupePair, dedupeKey]
  by_cases h : (pyStrip q.pool_id != "" && _to_int (.int q.seq_id) 0 != 0) = true
  case pos =>
    rw [if_pos h, if_pos h]
    constructor
    · intro he
      have hx : (pyStrip q.pool_id, _to_int (.int q.seq_id) 0) = (p, s) := by
        injection he
      rw [show pyStrip q.pool_id = p from congrArg Prod.fst hx,
        show _to_int (.int q.seq_id) 0 = s from congrArg Prod.snd hx]
    · intro he
      obtain ⟨hp, hs⟩ := keyString_inj _ _ _ _ he
      rw [hp, hs]
  case neg =>
    rw [if_neg h, if_neg h]
    constructor
    · intro he; simp at he
    · intro he; exact absurd he.symm (keyString_ne_empty p s)

theorem dedupLoop_countP_seen (k : String) (hk : k ≠ "") :
    ∀ (items : List RawItem) (seen : List String), k ∈ seen →
      (dedupLoop items seen).countP (fun q => dedupeKey q == k) = 0 := by
  intro items
  induction items with
  | nil => intro seen h; simp [dedupLoop]
  | cons item rest ih =>
    intro seen hseen
    simp only [dedupLoop]
    by_cases hbranch : (dedupeKey (_normalize_pull_item item) != "" &&
        seen.contains (dedupeKey (_normalize_pull_item item))) = true
    · rw [if_pos hbranch]
      exact ih seen hseen
    · rw [if_neg hbranch]
      have hne : (dedupeKey (_normalize_pull_item item) == k) = false := by
        by_cases hkey : dedupeKey (_normalize_pull_item item) = k
        · exfalso
          apply hbranch
          rw [hkey]
          simp [hk, List.elem_eq_mem, hseen]
        · simp [hkey]
      have htail : (dedupLoop rest
          (if (dedupeKey (_normalize_pull_item item) != "") = true
            then dedupeKey (_normalize_pull_item item) :: seen
            else seen)).countP (fun q => dedupeKey q == k) = 0 := by
        apply ih
        split
        · exact List.mem_cons_of_mem _ hseen
        · exact hseen
      rw [List.countP_cons, htail]
      simp [hne]

theorem dedupLoop_countP_new (k : String) (hk : k ≠ "") :
    ∀ (items : List RawItem) (seen : List String), k ∉ seen →
      (dedupLoop items seen).countP (fun q => dedupeKey q == k) =
        if items.any (fun it => dedupeKey (_normalize_pull_item it) == k)
          then 1 else 0 := by
  intro items
  induction items with
  | nil => intro seen h; simp [dedupLoop]
  | cons item rest ih =>
    intro seen hseen
    simp only [dedupLoop, List.any_cons]
    by_cases hkey : dedupeKey (_normalize_pull_item item) = k
    · have hbeq : (dedupeKey (_normalize_pull_item item) == k) = true := by
        simp [hkey]
      have hbranch : ¬ ((dedupeKey (_normalize_pull_item item) != "" &&
          seen.contains (dedupeKey (_normalize_pull_item item))) = true) := by
        rw [hkey]
        simp [List.elem_eq_mem]
        intro _
        exact hseen
      rw [if_neg hbranch]
      have hkne : (dedupeKey (_normalize_pull_item item) != "") = true := by
        simp [hkey, hk]
      have hmem : k ∈ (if (dedupeKey (_normalize_pull_item item) != "") = true
          then dedupeKey (_normalize_pull_item item) :: seen else seen) := by
        rw [if_pos hkne, hkey]
        exact List.mem_cons_self _ _
      have htail := dedupLoop_countP_seen k hk rest _ hmem
      rw [List.countP_cons, htail]
      simp [hbeq]
    · have hbeq : (dedupeKey (_normalize_pull_item item) == k) = false := by
        simp [hkey]
      by_cases hbranch : (dedupeKey (_normalize_pull_item item) != "" &&
          seen.contains (dedupeKey (_normalize_pull_item item))) = true
      · rw [if_pos hbranch]
        rw [ih seen hseen]
        simp [hbeq]
      · rw [if_neg hbranch]
        have hnotmem : k ∉ (if (dedupeKey (_normalize_pull_item item) != "") = true
            then dedupeKey (_normalize_pull_item item) :: seen else seen) := by
          split
          · intro hmm
            rcases List.mem_cons.mp hmm with h1 | h1
            · exact hkey h1.symm
            · exact hseen h1
          · exact hseen
        have htail := ih _ hnotmem
        rw [List.countP_cons, htail]
        simp [hbeq]

theorem pityScan_eq_takeWhile (reset_values : List Int) :
    ∀ (rarities : List Int) (counter : Int),
      pityScan reset_values rarities counter =
        counter +
          ((rarities.takeWhile (fun r => !(reset_values.contains r))).length : Int) := by
  intro rarities
  induction rarities with
  | nil => intro counter; simp [pityScan]
  | cons r rest ih =>
    intro counter
    by_cases h : r ∈ reset_values
    · simp [pityScan, List.takeWhile, h]
    · simp only [pityScan, List.takeWhile, List.elem_eq_mem, h,
        decide_False, Bool.not_false, if_false, List.length_cons]
      rw [ih]
      simp only [List.elem_eq_mem]
      push_cast
      ring

/-- Claim C1: the pity computation returns the count of leading rarities
before the first reset rarity (the full length when none occurs) together
with `max (hard_limit - current) 0`; on input rarities [4,4,6,5,4], reset
set containing 6, and hard limit 80 it returns (2, 78). -/
theorem C1_pity_state (rarities reset_values : List Int) (hard_limit : Int) :
    _pity_state_with_resets rarities reset_values hard_limit =
      (((rarities.takeWhile (fun r => !(reset_values.contains r))).length : Int),
        max (hard_limit -
          ((rarities.takeWhile (fun r => !(reset_values.contains r))).length : Int)) 0)
      ∧ _pity_state_with_resets [4, 4, 6, 5, 4] [6] 80 = (2, 78) := by
  constructor
  · unfold _pity_state_with_resets _pity_counter_until_any
    rw [pityScan_eq_takeWhile]
    simp
  · decide

/-- Claim C9: record normalization is total on dict inputs by construction
(the model is a Lean function on the whole record type, so no input raises);
sequence id coercion falls back to 0 when int parsing of the source value
fails, a missing rarity key defaults to 0, missing boolean-flag keys default
to false, and the normalized timestamp is None rather than 0 whenever the
source timestamp is missing or fails int parsing. -/
theorem C9_normalization_total (item : RawItem) :
    (pyInt (if item.seq_id.isSome then getv item.seq_id else getv item.seqId) =
        Option.none → (_normalize_pull_item item).seq_id = 0)
    ∧ (item.rarity = Option.none → (_normalize_pull_item item).rarity = 0)
    ∧ (item.is_free = Option.none → item.isFree = Option.none →
        (_normalize_pull_item item).is_free = false)
    ∧ (item.is_new = Option.none → item.isNew = Option.none →
        (_normalize_pull_item item).is_new = false)
    ∧ (pyInt (if item.gacha_ts.isSome then getv item.gacha_ts else getv item.gachaTs) =
        Option.none → (_normalize_pull_item item).gacha_ts = Option.none) := by
  refine ⟨?_, ?_, ?_, ?_, ?_⟩
  · intro h
    simp [_normalize_pull_item, _to_int, h]
  · intro h
    simp [_normalize_pull_item, _to_int, getv, h, pyInt]
  · intro h1 h2
    simp [_normalize_pull_item, _to_bool, getv, h1, h2, PyVal.truthy]
  · intro h1 h2
    simp [_normalize_pull_item, _to_bool, getv, h1, h2, PyVal.truthy]
  · intro h
    simp [_normalize_pull_item, _to_int, h]

/-- Witness for C9 at the empty record dict. -/
theorem C9_normalization_total_witness :
    (_normalize_pull_item RawItem.empty).seq_id = 0 ∧
      (_normalize_pull_item RawItem.empty).rarity = 0 ∧
      (_normalize_pull_item RawItem.empty).is_free = false ∧
      (_normalize_pull_item RawItem.empty).is_new = false ∧
      (_normalize_pull_item RawItem.empty).gacha_ts = Option.none :=
  ⟨(C9_normalization_total RawItem.empty).1 (by decide),
    (C9_normalization_total RawItem.empty).2.1 (by decide),
    (C9_normalization_total RawItem.empty).2.2.1 (by decide) (by decide),
    (C9_normalization_total RawItem.empty).2.2.2.1 (by decide) (by decide),
    (C9_normalization_total RawItem.empty).2.2.2.2 (by decide)⟩

/-- Claim C2: for every fetched item sequence in which some (pool id,
sequence id) pair — pool id nonempty and sequence id nonzero, which is what
the dedupe key encodes — appears more than once among the normalized
records, the aggregated pull list built by the import job contains a record
with that pair exactly once. -/
theorem C2_dedup_exactly_once (items : List RawItem) (p : String) (s : Int)
    (hcount : 2 ≤ items.countP
      (fun it => dedupePair (_normalize_pull_item it) == Option.some (p, s))) :
    (importSessionPulls items).countP
      (fun q => dedupePair q == Option.some (p, s)) = 1 := by
  have hkne : p ++ ":" ++ toString s ≠ "" := keyString_ne_empty p s
  have hpred : ∀ q : Pull,
      (dedupePair q == Option.some (p, s)) =
        (dedupeKey q == (p ++ ":" ++ toString s)) := by
    intro q
    by_cases hq : dedupePair q = Option.some (p, s)
    · have hq2 := (dedupePair_eq_iff_key q p s).mp hq
      simp [hq, hq2]
    · have hq2 : ¬ dedupeKey q = p ++ ":" ++ toString s :=
        fun h => hq ((dedupePair_eq_iff_key q p s).mpr h)
      simp [hq, hq2]
  have hperm : (importSessionPulls items).countP
        (fun q => dedupePair q == Option.some (p, s)) =
      (dedupLoop items []).countP
        (fun q => dedupePair q == Option.some (p, s)) := by
    unfold importSessionPulls sortPullsDesc
    exact (List.mergeSort_perm _ _).countP_eq _
  rw [hperm]
  have hrw : (fun q => dedupePair q == Option.some (p, s))
      = (fun q => dedupeKey q == (p ++ ":" ++ toString s)) := funext hpred
  rw [hrw]
  rw [dedupLoop_countP_new _ hkne items [] (by simp)]
  have hex : items.any (fun it => dedupeKey (_normalize_pull_item it) ==
      (p ++ ":" ++ toString s)) = true := by
    have hpos : 0 < items.countP
        (fun it => dedupePair (_normalize_pull_item it) == Option.some (p, s)) := by
      omega
    rcases List.countP_pos_iff.mp hpos with ⟨a, ha, hpa⟩
    refine List.any_eq_true.mpr ⟨a, ha, ?_⟩
    rw [← hpred]
    exact hpa
  rw [hex]
  simp

/-- Witness for C2: two copies of the same (pool "special", seq 1) record
aggregate to a single stored pull. -/
theorem C2_dedup_exactly_once_witness :
    2 ≤ List.countP
        (fun it => dedupePair (_normalize_pull_item it) == Option.some ("special", 1))
        [sampleDup, sampleDup]
    ∧ (importSessionPulls [sampleDup, sampleDup]).countP
        (fun q => dedupePair q == Option.some ("special", 1)) = 1 :=
  ⟨by decide, C2_dedup_exactly_once [sampleDup, sampleDup] "special" 1 (by decide)⟩

theorem _set_progress_sessions (st : ImportState) (sid : Int)
    (a : Option String) (b : Option Int) (c d : Option String) :
    (_set_progress st sid a b c d).sessions = st.sessions := rfl

theorem keyLe_trans (a b c : Int × Int) (h1 : keyLe a b = true)
    (h2 : keyLe b c = true) : keyLe a c = true := by
  rcases a with ⟨a1, a2⟩
  rcases b with ⟨b1, b2⟩
  rcases c with ⟨c1, c2⟩
  simp [keyLe] at h1 h2 ⊢
  omega

theorem keyLe_total (a b : Int × Int) : (keyLe a b || keyLe b a) = true := by
  rcases a with ⟨a1, a2⟩
  rcases b with ⟨b1, b2⟩
  simp [keyLe]
  omega

theorem sortPullsDesc_sorted (pulls : List Pull) :
    (sortPullsDesc pulls).Pairwise
      (fun a b => keyLe (pullSortKey b) (pullSortKey a) = true) := by
  unfold sortPullsDesc
  apply List.sorted_mergeSort
  · exact fun a b c hab hbc => keyLe_trans _ _ _ hbc hab
  · exact fun a b => keyLe_total (pullSortKey b) (pullSortKey a)

theorem run_import_ok_sessions (st : ImportState) (session_id : Int)
    (character_items weapon_items : List RawItem) (session : SessionRec)
    (hs : st.sessions session_id = Option.some session) :
    (_run_import_session st session_id
        (Except.ok (character_items, weapon_items))).sessions session_id =
      Option.some { session with
        status := "done"
        error := ""
        pulls := importSessionPulls (character_items ++ weapon_items) } := by
  unfold _run_import_session _get_import_session
  rw [hs]
  simp only [_set_progress_sessions]
  unfold _set_import_session
  simp only [_set_progress_sessions, apply_ite ImportState.sessions, ite_self]
  rw [hs]
  simp

/-- Claim C5: when an exception with text msg escapes the fetch phase, the
background job records the session with status "error", error text equal to
msg, an empty stored pull set, and sets the progress tracker's error field
to the same text (with progress status "error" at 100). -/
theorem C5_fetch_error_recorded (st : ImportState) (session_id : Int)
    (msg : String) (session : SessionRec)
    (hs : st.sessions session_id = Option.some session) :
    ((_run_import_session st session_id (Except.error msg)).sessions session_id =
        Option.some { session with status := "error", error := msg, pulls := [] })
    ∧ ((_run_import_session st session_id (Except.error msg)).progress session_id).error =
        Option.some msg
    ∧ ((_run_import_session st session_id (Except.error msg)).progress session_id).status =
        Option.some "error"
    ∧ ((_run_import_session st session_id (Except.error msg)).progress session_id).progress =
        Option.some 100 := by
  unfold _run_import_session _get_import_session
  rw [hs]
  unfold _set_import_session _set_progress
  simp [hs]

/-- Witness for C5 at a concrete state and exception text. -/
theorem C5_fetch_error_recorded_witness :
    ((_run_import_session sampleState 1 (Except.error "boom")).sessions 1 =
        Option.some { sampleSession with status := "error", error := "boom", pulls := [] })
    ∧ ((_run_import_session sampleState 1 (Except.error "boom")).progress 1).error =
        Option.some "boom"
    ∧ ((_run_import_session sampleState 1 (Except.error "boom")).progress 1).status =
        Option.some "error"
    ∧ ((_run_import_session sampleState 1 (Except.error "boom")).progress 1).progress =
        Option.some 100 :=
  C5_fetch_error_recorded sampleState 1 "boom" sampleSession (by decide)

/-- Claim C8: for an existing session, the status endpoint reports progress
100 whenever the stored status is "done", regardless of any recorded
progress value; when no progress was recorded it reports 100 exactly when
the status is "done" or "error" and 0 otherwise; and the response always
carries the session's current pull count. -/
theorem C8_import_status_progress (st : ImportState) (session_id : Int)
    (session : SessionRec) (hs : st.sessions session_id = Option.some session) :
    (session.status = "done" →
      (import_status st session_id).map StatusResponse.progress = Option.some 100)
    ∧ ((st.progress session_id).progress = Option.none →
      (import_status st session_id).map StatusResponse.progress =
        Option.some (if session.status = "done" || session.status = "error"
          then 100 else 0))
    ∧ (import_status st session_id).map StatusResponse.pull_count =
        Option.some session.pulls.length := by
  refine ⟨?_, ?_, ?_⟩
  · intro h
    simp [import_status, _get_import_session, _get_progress, hs, h]
  · intro h
    by_cases hd : session.status = "done"
    · simp [import_status, _get_import_session, _get_progress, hs, h, hd]
    · simp [import_status, _get_import_session, _get_progress, hs, h, hd]
  · simp [import_status, _get_import_session, _get_progress, hs]

/-- Witness for C8 at a concrete done session with no recorded progress. -/
theorem C8_import_status_progress_witness :
    ((import_status sampleDoneState 1).map StatusResponse.progress = Option.some 100)
    ∧ ((import_status sampleDoneState 1).map StatusResponse.progress =
        Option.some (if sampleDoneSession.status = "done" ||
          sampleDoneSession.status = "error" then 100 else 0))
    ∧ (import_status sampleDoneState 1).map StatusResponse.pull_count =
        Option.some sampleDoneSession.pulls.length :=
  ⟨(C8_import_status_progress sampleDoneState 1 sampleDoneSession (by decide)).1 (by decide),
    (C8_import_status_progress sampleDoneState 1 sampleDoneSession (by decide)).2.1 (by decide),
    (C8_import_status_progress sampleDoneState 1 sampleDoneSession (by decide)).2.2⟩

/-- Claim C10: for every import session that completes successfully, the
pull list stored in the session and read back through the session accessor
is sorted descending in the lexicographic key (timestamp with missing time
read as 0, sequence id): consumers observe pulls most recent first. -/
theorem C10_session_pulls_sorted (st : ImportState) (session_id : Int)
    (character_items weapon_items : List RawItem) (session : SessionRec)
    (hs : st.sessions session_id = Option.some session) :
    ∃ stored : SessionRec,
      _get_import_session
          (_run_import_session st session_id
            (Except.ok (character_items, weapon_items))) session_id =
        Option.some stored
      ∧ stored.status = "done"
      ∧ stored.pulls.Pairwise
          (fun a b => keyLe (pullSortKey b) (pullSortKey a) = true) := by
  refine ⟨{ session with
    status := "done"
    error := ""
    pulls := importSessionPulls (character_items ++ weapon_items) }, ?_, rfl, ?_⟩
  · exact run_import_ok_sessions st session_id character_items weapon_items session hs
  · exact sortPullsDesc_sorted _

/-- Witness for C10 at a concrete state and fetched item lists. -/
theorem C10_session_pulls_sorted_witness :
    ∃ stored : SessionRec,
      _get_import_session
          (_run_import_session sampleState 1 (Except.ok ([sampleDup], []))) 1 =
        Option.some stored
      ∧ stored.status = "done"
      ∧ stored.pulls.Pairwise
          (fun a b => keyLe (pullSortKey b) (pullSortKey a) = true) :=
  C10_session_pulls_sorted sampleState 1 [sampleDup] [] sampleSession (by decide)

theorem dedupeKey_ne_empty_seq (q : Pull) (h : dedupeKey q ≠ "") :
    q.seq_id ≠ 0 := by
  intro hz
  apply h
  unfold dedupeKey
  rw [hz]
  simp [_to_int, pyInt]

theorem dedupLoop_countP_seq_zero :
    ∀ (items : List RawItem) (seen : List String),
      (dedupLoop items seen).countP (fun q => q.seq_id == 0) =
        items.countP (fun it => (_normalize_pull_item it).seq_id == 0) := by
  intro items
  induction items with
  | nil => intro seen; simp [dedupLoop]
  | cons item rest ih =>
    intro seen
    simp only [dedupLoop, List.countP_cons]
    by_cases hbranch : (dedupeKey (_normalize_pull_item item) != "" &&
        seen.contains (dedupeKey (_normalize_pull_item item))) = true
    · rw [if_pos hbranch]
      have hkey : dedupeKey (_normalize_pull_item item) ≠ "" := by
        intro he
        rw [he] at hbranch
        simp at hbranch
      have hseq : ((_normalize_pull_item item).seq_id == 0) = false := by
        simp [dedupeKey_ne_empty_seq _ hkey]
      rw [ih seen, hseq]
      simp
    · rw [if_neg hbranch]
      rw [List.countP_cons, ih]

theorem C6_helper_weapon_keeps (pool_id : String) :
    ∀ (page : List RawItem) (seen : List String) (out : List RawItem),
      (weaponPageCollect pool_id page seen out).2.countP
          (fun it => pyStrip ((getv it.seqId).orElse (.str "")).toStr == "") =
        out.countP (fun it => pyStrip ((getv it.seqId).orElse (.str "")).toStr == "")
          + page.countP
            (fun it => pyStrip ((getv it.seqId).orElse (.str "")).toStr == "") := by
  intro page
  induction page with
  | nil => intro seen out; simp [weaponPageCollect]
  | cons item rest ih =>
    intro seen out
    simp only [weaponPageCollect, List.countP_cons]
    by_cases hseq : pyStrip ((getv item.seqId).orElse (.str "")).toStr = ""
    · have hkey : (if pyStrip ((getv item.seqId).orElse (.str "")).toStr != ""
          then pyStrip ((getv item.poolId).orElse (.str pool_id)).toStr ++ ":" ++
            pyStrip ((getv item.seqId).orElse (.str "")).toStr
          else "") = "" := by
        rw [if_neg (by simp [hseq])]
      rw [hkey]
      rw [if_neg (by simp)]
      rw [if_neg (by simp)]
      rw [ih]
      rw [List.countP_append]
      have hkept : List.countP
          (fun it => pyStrip ((getv it.seqId).orElse (.str "")).toStr == "")
          [{ item with _source_pool_type := Option.some (.str WEAPON_SOURCE_POOL_TYPE) }] = 1 := by
        simp [hseq]
      rw [hkept]
      simp [hseq]
      omega
    · by_cases hbranch : ((if pyStrip ((getv item.seqId).orElse (.str "")).toStr != ""
          then pyStrip ((getv item.poolId).orElse (.str pool_id)).toStr ++ ":" ++
            pyStrip ((getv item.seqId).orElse (.str "")).toStr
          else "") != "" &&
          seen.contains (if pyStrip ((getv item.seqId).orElse (.str "")).toStr != ""
          then pyStrip ((getv item.poolId).orElse (.str pool_id)).toStr ++ ":" ++
            pyStrip ((getv item.seqId).orElse (.str "")).toStr
          else "")) = true
      · rw [if_pos hbranch]
        rw [ih]
        simp [hseq]
      · rw [if_neg hbranch]
        rw [ih]
        rw [List.countP_append]
        have hdropped : List.countP
            (fun it => pyStrip ((getv it.seqId).orElse (.str "")).toStr == "")
            [{ item with _source_pool_type := Option.some (.str WEAPON_SOURCE_POOL_TYPE) }] = 0 := by
          simp [hseq]
        rw [hdropped]
        simp [hseq]

theorem C6_helper_char_drops (pool_type : String) :
    ∀ (page : List RawItem) (seen : List PyVal) (out : List RawItem),
      (charPageCollect pool_type page seen out).2.countP
          (fun it => !(getv it.seqId).truthy) =
        out.countP (fun it => !(getv it.seqId).truthy) := by
  intro page
  induction page with
  | nil => intro seen out; simp [charPageCollect]
  | cons item rest ih =>
    intro seen out
    simp only [charPageCollect]
    by_cases hbranch : ((getv item.seqId).truthy &&
        !(seen.contains (getv item.seqId))) = true
    · rw [if_pos hbranch]
      rw [ih]
      rw [List.countP_append]
      have htruthy : (getv item.seqId).truthy = true := by
        cases hx : (getv item.seqId).truthy
        · rw [hx] at hbranch; simp at hbranch
        · rfl
      have hkept : List.countP (fun it => !(getv it.seqId).truthy)
          [{ item with _source_pool_type := Option.some (.str pool_type) }] = 0 := by
        simp [htruthy]
      rw [hkept]
      simp
    · rw [if_neg hbranch]
      exact ih seen out

/-- Counterexample to claim C6 as stated: the character page fetch reads a
page containing exactly one record, which lacks a seqId, and returns an
empty record list after one request — the record was fetched but dropped,
not kept. -/
theorem C6_counterexample :
    (noSeqUpstream 0).list = [noSeqItem]
    ∧ fetch_character_pages noSeqUpstream "E_CharacterGachaPoolType_Special" 10 =
        Option.some ([], 1) :=
  ⟨rfl, by decide⟩

/-- Claim C6 amended: a record lacking a sequence id is never treated as a
duplicate and is always kept by the import job's aggregation (the count of
normalized records with seq id 0, which covers every record lacking one, is
preserved through dedup and sort) and by the weapon fetcher's per-page loop;
the character page fetcher, however, skips every record whose raw seqId is
missing or falsy. -/
theorem C6_no_seq_records (items : List RawItem) (pool_type pool_id : String)
    (page : List RawItem) :
    (importSessionPulls items).countP (fun q => q.seq_id == 0) =
      items.countP (fun it => (_normalize_pull_item it).seq_id == 0)
    ∧ (weaponPageCollect pool_id page [] []).2.countP
        (fun it => pyStrip ((getv it.seqId).orElse (.str "")).toStr == "") =
      page.countP (fun it => pyStrip ((getv it.seqId).orElse (.str "")).toStr == "")
    ∧ (charPageCollect pool_type page [] []).2.countP
        (fun it => !(getv it.seqId).truthy) = 0 := by
  refine ⟨?_, ?_, ?_⟩
  · have hperm : (importSessionPulls items).countP (fun q => q.seq_id == 0) =
        (dedupLoop items []).countP (fun q => q.seq_id == 0) := by
      unfold importSessionPulls sortPullsDesc
      exact (List.mergeSort_perm _ _).countP_eq _
    rw [hperm]
    exact dedupLoop_countP_seq_zero items []
  · rw [C6_helper_weapon_keeps pool_id page [] []]
    simp
  · rw [C6_helper_char_drops pool_type page [] []]
    simp

theorem fetchLoop_step_stop (upstream : Nat → PageResponse) (pool_type : String)
    (fuel idx : Nat) (seen : List PyVal) (out : List RawItem)
    (h : pageStops (upstream idx) = true) :
    ∃ recs : List RawItem,
      fetchCharPagesLoop upstream pool_type (fuel + 1) idx seen out =
        Option.some (recs, idx + 1) := by
  simp only [fetchCharPagesLoop]
  by_cases h1 : ((upstream idx).status_code != 200) = true
  · rw [if_pos h1]; exact ⟨out, rfl⟩
  · rw [if_neg h1]
    by_cases h2 : ((upstream idx).code != 0) = true
    · rw [if_pos h2]; exact ⟨out, rfl⟩
    · rw [if_neg h2]
      by_cases h3 : ((upstream idx).list.isEmpty) = true
      · rw [if_pos h3]; exact ⟨out, rfl⟩
      · rw [if_neg h3]
        by_cases h4 : (!(upstream idx).hasMore) = true
        · rw [if_pos h4]; exact ⟨_, rfl⟩
        · rw [if_neg h4]
          by_cases h5 : (!(lastSeqId (upstream idx).list).truthy) = true
          · rw [if_pos h5]; exact ⟨_, rfl⟩
          · exfalso
            unfold pageStops at h
            simp only [Bool.not_eq_true] at h1 h2 h3 h4 h5
            rw [h1, h2, h3, h4, h5] at h
            simp at h

theorem fetchLoop_step_next (upstream : Nat → PageResponse) (pool_type : String)
    (fuel idx : Nat) (seen : List PyVal) (out : List RawItem)
    (h : pageStops (upstream idx) = false) :
    fetchCharPagesLoop upstream pool_type (fuel + 1) idx seen out =
      fetchCharPagesLoop upstream pool_type fuel (idx + 1)
        (charPageCollect pool_type (upstream idx).list seen out).1
        (charPageCollect pool_type (upstream idx).list seen out).2 := by
  unfold pageStops at h
  simp only [Bool.or_eq_false_iff] at h
  obtain ⟨⟨⟨⟨h1, h2⟩, h3⟩, h4⟩, h5⟩ := h
  simp only [fetchCharPagesLoop]
  rw [if_neg (by simp [h1]), if_neg (by simp [h2]), if_neg (by simp [h3]),
    if_neg (by simp [h4]), if_neg (by simp [h5])]

theorem fetchLoop_terminates (upstream : Nat → PageResponse) (pool_type : String)
    (n : Nat) (hstop : pageStops (upstream n) = true) :
    ∀ (fuel idx : Nat) (seen : List PyVal) (out : List RawItem),
      idx ≤ n → n - idx < fuel →
      ∃ res : List RawItem × Nat,
        fetchCharPagesLoop upstream pool_type fuel idx seen out =
          Option.some res ∧ res.2 ≤ n + 1 := by
  intro fuel
  induction fuel with
  | zero => intro idx seen out h1 h2; omega
  | succ fuel ih =>
    intro idx seen out h1 h2
    by_cases hp : pageStops (upstream idx) = true
    · obtain ⟨recs, hr⟩ := fetchLoop_step_stop upstream pool_type fuel idx seen out hp
      exact ⟨(recs, idx + 1), hr, by omega⟩
    · have hpf : pageStops (upstream idx) = false := by
        cases hq : pageStops (upstream idx)
        · rfl
        · exact absurd hq hp
      have hne : idx ≠ n := fun he => hp (he ▸ hstop)
      rw [fetchLoop_step_next upstream pool_type fuel idx seen out hpf]
      exact ih (idx + 1) _ _ (by omega) (by omega)

/-- Claim C7: the page-fetch loop terminates and returns the accumulated
records, without raising, whenever some page has non-200 HTTP status, a
nonzero embedded code, an empty record list, hasMore false, or a last
record without a sequence id, issuing at most n+1 page requests when page n
(0-based) stops; and on the concrete upstream whose second page answers
hasMore=false, exactly 2 page requests are issued. -/
theorem C7_pagination_terminates (upstream : Nat → PageResponse)
    (pool_type : String) (n fuel : Nat)
    (hstop : pageStops (upstream n) = true) (hfuel : n < fuel) :
    (∃ res : List RawItem × Nat,
      fetch_character_pages upstream pool_type fuel = Option.some res ∧
        res.2 ≤ n + 1)
    ∧ (fetch_character_pages twoPageUpstream
        "E_CharacterGachaPoolType_Standard" 10).map Prod.snd = Option.some 2 := by
  constructor
  · exact fetchLoop_terminates upstream pool_type n hstop fuel 0 [] []
      (by omega) (by omega)
  · decide

/-- Witness for C7 at the two-page upstream (its page with index 1 answers
hasMore=false). -/
theorem C7_pagination_terminates_witness :
    (∃ res : List RawItem × Nat,
      fetch_character_pages twoPageUpstream "E_CharacterGachaPoolType_Standard" 10 =
        Option.some res ∧ res.2 ≤ 2)
    ∧ (fetch_character_pages twoPageUpstream
        "E_CharacterGachaPoolType_Standard" 10).map Prod.snd = Option.some 2 :=
  C7_pagination_terminates twoPageUpstream "E_CharacterGachaPoolType_Standard" 1 10
    (by decide) (by decide)

/-- Claim C3, code evaluated at the failing input: on the exact payload of
the claim, the import routine of src/core/views.py only validates the shape
and counts — it returns (1 session, 1 pull) and performs no store write of
any kind (its docstring says: return counters without writing DB), so no
stored session with server_id "4" and no pull "Bob" is created, where the
claim and the repository's own test
test_import_history_creates_sessions_and_pulls expect one of each. -/
theorem C3_import_counts_only :
    _import_history_payload payloadC3 = Except.ok (1, 1) := rfl

theorem latestStep_cases (acc : Nat × Nat) (vb : (Nat × Nat × Nat) × SBanner) :
    latestStep acc vb = acc ∨ latestStep acc vb = (vb.1.1, vb.1.2.1) := by
  unfold latestStep
  split
  · exact Or.inr rfl
  · exact Or.inl rfl

theorem latestStep_ge_acc (acc : Nat × Nat) (vb : (Nat × Nat × Nat) × SBanner) :
    acc.1 < (latestStep acc vb).1 ∨
      (acc.1 = (latestStep acc vb).1 ∧ acc.2 ≤ (latestStep acc vb).2) := by
  unfold latestStep
  split
  · rename_i h
    simp only [Bool.or_eq_true, Bool.and_eq_true, decide_eq_true_eq,
      beq_iff_eq] at h
    show acc.1 < vb.1.1 ∨ (acc.1 = vb.1.1 ∧ acc.2 ≤ vb.1.2.1)
    omega
  · right
    exact ⟨rfl, Nat.le_refl _⟩

theorem latestStep_ge_vb (acc : Nat × Nat) (vb : (Nat × Nat × Nat) × SBanner) :
    vb.1.1 < (latestStep acc vb).1 ∨
      (vb.1.1 = (latestStep acc vb).1 ∧ vb.1.2.1 ≤ (latestStep acc vb).2) := by
  unfold latestStep
  split
  · right
    exact ⟨rfl, Nat.le_refl _⟩
  · rename_i h
    simp only [Bool.or_eq_true, Bool.and_eq_true, decide_eq_true_eq,
      beq_iff_eq] at h
    omega

theorem latestFold_mem :
    ∀ (l : List ((Nat × Nat × Nat) × SBanner)) (acc : Nat × Nat),
      l.foldl latestStep acc = acc ∨
        ∃ vb ∈ l, l.foldl latestStep acc = (vb.1.1, vb.1.2.1) := by
  intro l
  induction l with
  | nil => intro acc; exact Or.inl rfl
  | cons x rest ih =>
    intro acc
    rw [List.foldl_cons]
    rcases ih (latestStep acc x) with h | ⟨vb, hm, he⟩
    · rcases latestStep_cases acc x with h2 | h2
      · exact Or.inl (by rw [h, h2])
      · exact Or.inr ⟨x, List.mem_cons_self x rest, by rw [h, h2]⟩
    · exact Or.inr ⟨vb, List.mem_cons_of_mem x hm, he⟩

theorem latestFold_ge_acc :
    ∀ (l : List ((Nat × Nat × Nat) × SBanner)) (acc : Nat × Nat),
      acc.1 < (l.foldl latestStep acc).1 ∨
        (acc.1 = (l.foldl latestStep acc).1 ∧
          acc.2 ≤ (l.foldl latestStep acc).2) := by
  intro l
  induction l with
  | nil =>
    intro acc
    right
    exact ⟨rfl, Nat.le_refl _⟩
  | cons x rest ih =>
    intro acc
    rw [List.foldl_cons]
    have h1 := latestStep_ge_acc acc x
    have h2 := ih (latestStep acc x)
    omega

theorem latestFold_ge_mem :
    ∀ (l : List ((Nat × Nat × Nat) × SBanner)) (acc : Nat × Nat),
      ∀ vb ∈ l,
        vb.1.1 < (l.foldl latestStep acc).1 ∨
          (vb.1.1 = (l.foldl latestStep acc).1 ∧
            vb.1.2.1 ≤ (l.foldl latestStep acc).2) := by
  intro l
  induction l with
  | nil =>
    intro acc vb hm
    exact absurd hm (List.not_mem_nil vb)
  | cons x rest ih =>
    intro acc vb hm
    rw [List.foldl_cons]
    rcases List.mem_cons.mp hm with h | h
    · subst h
      have h1 := latestStep_ge_vb acc vb
      have h2 := latestFold_ge_acc rest (latestStep acc vb)
      omega
    · exact ih (latestStep acc x) vb h

theorem latestVersion_eq (first : (Nat × Nat × Nat) × SBanner)
    (restP : List ((Nat × Nat × Nat) × SBanner)) (M m : Nat)
    (hub : ∀ vb ∈ first :: restP, vb.1.1 < M ∨ (vb.1.1 = M ∧ vb.1.2.1 ≤ m))
    (hmem : ∃ vb ∈ first :: restP, vb.1.1 = M ∧ vb.1.2.1 = m) :
    latestVersion first restP = (M, m) := by
  unfold latestVersion
  have hle : (restP.foldl latestStep (first.1.1, first.1.2.1)).1 < M ∨
      ((restP.foldl latestStep (first.1.1, first.1.2.1)).1 = M ∧
        (restP.foldl latestStep (first.1.1, first.1.2.1)).2 ≤ m) := by
    rcases latestFold_mem restP (first.1.1, first.1.2.1) with h | ⟨vb, hm, he⟩
    · rw [h]
      show first.1.1 < M ∨ (first.1.1 = M ∧ first.1.2.1 ≤ m)
      exact hub first (List.mem_cons_self first restP)
    · rw [he]
      show vb.1.1 < M ∨ (vb.1.1 = M ∧ vb.1.2.1 ≤ m)
      exact hub vb (List.mem_cons_of_mem first hm)
  obtain ⟨vb0, hm0, hv0⟩ := hmem
  have hge : vb0.1.1 < (restP.foldl latestStep (first.1.1, first.1.2.1)).1 ∨
      (vb0.1.1 = (restP.foldl latestStep (first.1.1, first.1.2.1)).1 ∧
        vb0.1.2.1 ≤ (restP.foldl latestStep (first.1.1, first.1.2.1)).2) := by
    rcases List.mem_cons.mp hm0 with h | h
    · have h2 : first.1.1 < (restP.foldl latestStep (first.1.1, first.1.2.1)).1 ∨
          (first.1.1 = (restP.foldl latestStep (first.1.1, first.1.2.1)).1 ∧
            first.1.2.1 ≤ (restP.foldl latestStep (first.1.1, first.1.2.1)).2) :=
        latestFold_ge_acc restP (first.1.1, first.1.2.1)
      rw [h]
      exact h2
    · exact latestFold_ge_mem restP (first.1.1, first.1.2.1) vb0 h
  have h1 : (restP.foldl latestStep (first.1.1, first.1.2.1)).1 = M := by omega
  have h2 : (restP.foldl latestStep (first.1.1, first.1.2.1)).2 = m := by omega
  exact Prod.ext h1 h2

theorem insertSorted_perm {α : Type _} (le : α → α → Bool) (x : α) :
    ∀ l : List α, (insertSorted le x l).Perm (x :: l) := by
  intro l
  induction l with
  | nil => exact List.Perm.refl _
  | cons y rest ih =>
    show (if le x y then x :: y :: rest
      else y :: insertSorted le x rest).Perm (x :: y :: rest)
    by_cases h : le x y = true
    · simp only [if_pos h]
      exact List.Perm.refl _
    · simp only [if_neg h]
      exact (ih.cons y).trans (List.Perm.swap x y rest)

theorem sortWith_perm {α : Type _} (le : α → α → Bool) :
    ∀ l : List α, (sortWith le l).Perm l := by
  intro l
  induction l with
  | nil => exact List.Perm.refl _
  | cons x rest ih =>
    show (insertSorted le x (sortWith le rest)).Perm (x :: rest)
    exact (insertSorted_perm le x (sortWith le rest)).trans (ih.cons x)

theorem sortBySeq_perm (l : List ((Nat × Nat × Nat) × SBanner)) :
    (sortBySeq l).Perm l :=
  sortWith_perm seqLe l

theorem sortByDrops_perm (l : List TopStatRow) :
    (sortByDrops l).Perm l :=
  sortWith_perm dropsGe l

theorem countP_pair_one {α : Type _} (l : List α) (p : α → α → Bool) :
    ∀ t : α, t ∈ l →
      l.Pairwise (fun a b => p a b = false ∧ p b a = false) →
      p t t = true → l.countP (fun b => p t b) = 1 := by
  induction l with
  | nil =>
    intro t ht hpw hs
    exact absurd ht (List.not_mem_nil t)
  | cons x rest ih =>
    intro t ht hpw hself
    have hx := (List.pairwise_cons.mp hpw).1
    have hrest := (List.pairwise_cons.mp hpw).2
    rw [List.countP_cons]
    rcases List.mem_cons.mp ht with h | h
    · have hxx : p t x = true := by
        rw [h]
        rw [h] at hself
        exact hself
      have hz : rest.countP (fun b => p t b) = 0 := by
        apply List.countP_eq_zero.mpr
        intro b hb
        rw [h]
        simp [(hx b hb).1]
      rw [hz]
      simp [hxx]
    · have hxf : p t x = false := (hx t h).2
      rw [ih t h hrest hself]
      simp [hxf]

theorem foldl_drop_count :
    ∀ (l : List TopStatRow) (acc : Nat), (∀ r ∈ l, r.drop_count = 1) →
      l.foldl (fun a r => a + r.drop_count) acc = acc + l.length := by
  intro l
  induction l with
  | nil =>
    intro acc h
    simp
  | cons x rest ih =>
    intro acc h
    rw [List.foldl_cons,
      ih (acc + x.drop_count) (fun r hr => h r (List.mem_cons_of_mem x hr)),
      h x (List.mem_cons_self x rest), List.length_cons]
    omega

theorem parsedBanners_spec (banners : List SBanner)
    (vb : (Nat × Nat × Nat) × SBanner) (h : vb ∈ parsedBanners banners) :
    parseSpecialPool vb.2.pool_id = Option.some vb.1 := by
  unfold parsedBanners at h
  rcases List.mem_filterMap.mp h with ⟨b, hb, he⟩
  cases hp : parseSpecialPool b.pool_id with
  | none =>
    rw [hp] at he
    exact absurd he (by simp)
  | some v =>
    rw [hp] at he
    have he2 : (v, b) = vb := by simpa using he
    subst he2
    simpa using hp

theorem versionBanners_inVersion (banners : List SBanner) (M m : Nat)
    (vb : (Nat × Nat × Nat) × SBanner) (h : vb ∈ versionBanners banners M m) :
    inVersion (M, m) vb.2.pool_id = true := by
  have hf := List.mem_filter.mp (show vb ∈ (parsedBanners banners).filter
    (fun vb => vb.1.1 == M && vb.1.2.1 == m) from h)
  unfold inVersion
  rw [parsedBanners_spec banners vb hf.1]
  simpa using hf.2

theorem shareRows_length (total : Nat) (rows : List TopStatRow) :
    (shareRows total rows).length = rows.length :=
  List.length_map _ _

theorem shareRows_code (total : Nat) (rows : List TopStatRow)
    (r : TopStatRow) (h : r ∈ shareRows total rows) :
    ∃ row ∈ rows, r.character_code = row.character_code := by
  rcases List.mem_map.mp h with ⟨row, hrow, he⟩
  exact ⟨row, hrow, by rw [← he]⟩

theorem computeStats_spec (latest : Nat × Nat)
    (vbs : List ((Nat × Nat × Nat) × SBanner))
    (pulls : List Pull) (tcc : Nat)
    (hlen : 4 ≤ vbs.length)
    (hone : ∀ vb ∈ vbs, pulls.countP
      (fun p => inVersion latest p.pool_id &&
        charMatch vb.2.top p.char_name) = 1)
    (hnodup : (vbs.map (fun vb => vb.2.top.code)).Nodup) :
    (computeStats latest vbs pulls tcc).stats.length = 3 ∧
    (computeStats latest vbs pulls tcc).total_top_drops = 3 ∧
    (∀ vb ∈ (sortBySeq vbs).drop 3,
      ∀ r ∈ (computeStats latest vbs pulls tcc).stats,
        r.character_code ≠ vb.2.top.code) := by
  have htlen : ((sortBySeq vbs).take 3).length = 3 := by
    rw [List.length_take, (sortBySeq_perm vbs).length_eq]
    omega
  have hone2 : ∀ r ∈ ((sortBySeq vbs).take 3).map (statRowOf latest pulls),
      r.drop_count = 1 := by
    intro r hr
    rcases List.mem_map.mp hr with ⟨vb, hvb, he⟩
    have hvbs2 : vb ∈ vbs :=
      (sortBySeq_perm vbs).mem_iff.mp (List.take_subset 3 _ hvb)
    rw [← he]
    exact hone vb hvbs2
  have htotal : (((sortBySeq vbs).take 3).map
      (statRowOf latest pulls)).foldl (fun acc r => acc + r.drop_count) 0 = 3 := by
    rw [foldl_drop_count _ 0 hone2, List.length_map, htlen]
  refine ⟨?_, ?_, ?_⟩
  · show (sortByDrops (shareRows
        ((((sortBySeq vbs).take 3).map (statRowOf latest pulls)).foldl
          (fun acc r => acc + r.drop_count) 0)
        (((sortBySeq vbs).take 3).map (statRowOf latest pulls)))).length = 3
    rw [(sortByDrops_perm _).length_eq, shareRows_length, List.length_map,
      htlen]
  · exact htotal
  · intro vb hvb r hr
    have hr2 : r ∈ shareRows
        ((((sortBySeq vbs).take 3).map (statRowOf latest pulls)).foldl
          (fun acc r => acc + r.drop_count) 0)
        (((sortBySeq vbs).take 3).map (statRowOf latest pulls)) :=
      (sortByDrops_perm _).mem_iff.mp hr
    rcases shareRows_code _ _ r hr2 with ⟨row, hrow, hcode1⟩
    rcases List.mem_map.mp hrow with ⟨t, ht, hte⟩
    have hcode2 : row.character_code = t.2.top.code := by
      rw [← hte]
      rfl
    have hnd : ((sortBySeq vbs).map (fun x => x.2.top.code)).Nodup :=
      ((sortBySeq_perm vbs).map (fun x => x.2.top.code)).nodup_iff.mpr hnodup
    have hsplit := List.take_append_drop 3 (sortBySeq vbs)
    rw [← hsplit, List.map_append] at hnd
    rcases List.nodup_append.mp hnd with ⟨hnd1, hnd2, hdisj2⟩
    intro he
    have heq : t.2.top.code = vb.2.top.code := by
      rw [← hcode2, ← hcode1]
      exact he
    exact hdisj2 (List.mem_map_of_mem _ ht)
      (by
        show t.2.top.code ∈ List.map (fun x => x.2.top.code)
          ((sortBySeq vbs).drop 3)
        rw [heq]
        exact List.mem_map_of_mem _ hvb)

/-- Claim C4 (spec-modelled): for every banner catalog whose latest parsed
(major, minor) version is (M, m) and that has four or more banners of that
version, each with a distinct top character and exactly one pull tagged
with its own pool (any further pulls lying outside the version), the
statistics track at most the first three version banners by pool sequence
number: the result has exactly 3 character rows, total_top_drops = 3, and
no row carries the top character of any version banner beyond the first
three — in particular not the 4th banner's. -/
theorem C4_version_stats_cap (banners : List SBanner) (M m tcc : Nat)
    (otherPulls : List Pull)
    (hcount : 4 ≤ (versionBanners banners M m).length)
    (hmax : ∀ vb ∈ parsedBanners banners,
      vb.1.1 < M ∨ (vb.1.1 = M ∧ vb.1.2.1 ≤ m))
    (hself : ∀ vb ∈ versionBanners banners M m,
      charMatch vb.2.top vb.2.top.name = true)
    (hdisj : (versionBanners banners M m).Pairwise
      (fun vb1 vb2 => charMatch vb1.2.top vb2.2.top.name = false ∧
        charMatch vb2.2.top vb1.2.top.name = false ∧
        vb1.2.top.code ≠ vb2.2.top.code))
    (hother : ∀ q ∈ otherPulls, inVersion (M, m) q.pool_id = false) :
    ∃ out : VersionTopStats,
      _compute_version_top_stats_from_pulls banners
          (((versionBanners banners M m).map
            (fun vb => statPull vb.2.pool_id vb.2.top.name)) ++ otherPulls)
          tcc = Option.some out
      ∧ out.stats.length = 3
      ∧ out.total_top_drops = 3
      ∧ (∀ vb ∈ (sortBySeq (versionBanners banners M m)).drop 3,
          ∀ r ∈ out.stats, r.character_code ≠ vb.2.top.code) := by
  have hpos : 0 < (versionBanners banners M m).length := by omega
  obtain ⟨vb0, hvb0⟩ := List.exists_mem_of_length_pos hpos
  have hvb0f := List.mem_filter.mp (show vb0 ∈ (parsedBanners banners).filter
    (fun vb => vb.1.1 == M && vb.1.2.1 == m) from hvb0)
  have hvb0ver : vb0.1.1 = M ∧ vb0.1.2.1 = m := by
    have h2 := hvb0f.2
    simp only [Bool.and_eq_true, beq_iff_eq] at h2
    exact h2
  have hone : ∀ vb ∈ versionBanners banners M m,
      (((versionBanners banners M m).map
        (fun vb2 => statPull vb2.2.pool_id vb2.2.top.name)) ++
        otherPulls).countP
        (fun p => inVersion (M, m) p.pool_id &&
          charMatch vb.2.top p.char_name) = 1 := by
    intro vb hvb
    rw [List.countP_append]
    have h0 : otherPulls.countP
        (fun p => inVersion (M, m) p.pool_id &&
          charMatch vb.2.top p.char_name) = 0 :=
      List.countP_eq_zero.mpr (fun q hq => by simp [hother q hq])
    rw [h0, Nat.add_zero, List.countP_map]
    have hcong : (versionBanners banners M m).countP
        ((fun p => inVersion (M, m) p.pool_id &&
            charMatch vb.2.top p.char_name) ∘
          (fun vb2 => statPull vb2.2.pool_id vb2.2.top.name)) =
        (versionBanners banners M m).countP
          (fun vb2 => charMatch vb.2.top vb2.2.top.name) :=
      List.countP_congr (fun vb2 hvb2 => by
        simp [Function.comp_apply, statPull,
          versionBanners_inVersion banners M m vb2 hvb2])
    rw [hcong]
    exact countP_pair_one (versionBanners banners M m)
      (fun a b => charMatch a.2.top b.2.top.name) vb hvb
      (hdisj.imp (fun h => ⟨h.1, h.2.1⟩)) (hself vb hvb)
  have hnodup : ((versionBanners banners M m).map
      (fun vb => vb.2.top.code)).Nodup := by
    show ((versionBanners banners M m).map
      (fun vb => vb.2.top.code)).Pairwise (fun a b => a ≠ b)
    exact List.pairwise_map.mpr (hdisj.imp (fun h => h.2.2))
  cases hpb : parsedBanners banners with
  | nil =>
    rw [hpb] at hvb0f
    exact absurd hvb0f.1 (List.not_mem_nil vb0)
  | cons first restP =>
    have hlat : latestVersion first restP = (M, m) :=
      latestVersion_eq first restP M m
        (fun vb hvb => hmax vb (by rw [hpb]; exact hvb))
        ⟨vb0, by rw [← hpb]; exact hvb0f.1, hvb0ver⟩
    have hvbs : (first :: restP).filter
        (fun vb => vb.1.1 == (M, m).1 && vb.1.2.1 == (M, m).2) =
        versionBanners banners M m := by
      show (first :: restP).filter
        (fun vb => vb.1.1 == M && vb.1.2.1 == m) =
        versionBanners banners M m
      unfold versionBanners
      rw [hpb]
    have hform : _compute_version_top_stats_from_pulls banners
        (((versionBanners banners M m).map
          (fun vb => statPull vb.2.pool_id vb.2.top.name)) ++ otherPulls)
        tcc = Option.some (computeStats (M, m) (versionBanners banners M m)
          (((versionBanners banners M m).map
            (fun vb => statPull vb.2.pool_id vb.2.top.name)) ++ otherPulls)
          tcc) := by
      unfold _compute_version_top_stats_from_pulls
      rw [hpb]
      show Option.some (computeStats (latestVersion first restP)
          ((first :: restP).filter
            (fun vb => vb.1.1 == (latestVersion first restP).1 &&
              vb.1.2.1 == (latestVersion first restP).2))
          (((versionBanners banners M m).map
            (fun vb => statPull vb.2.pool_id vb.2.top.name)) ++ otherPulls)
          tcc) = _
      rw [hlat, hvbs]
    obtain ⟨hs1, hs2, hs3⟩ := computeStats_spec (M, m)
      (versionBanners banners M m)
      (((versionBanners banners M m).map
        (fun vb => statPull vb.2.pool_id vb.2.top.name)) ++ otherPulls)
      tcc hcount hone hnodup
    exact ⟨_, hform, hs1, hs2, hs3⟩

/-- Witness for C4: the concrete five-banner catalog — one banner of the
older version 1.0 and four banners of version 1.2 topped by the
repository's Cyrillic-named characters — with one pull per version banner
plus an extra pull on the old pool. -/
theorem C4_version_stats_cap_witness :
    (4 ≤ (versionBanners witnessCatalog 1 2).length) ∧
    (∃ out : VersionTopStats,
      _compute_version_top_stats_from_pulls witnessCatalog
          (((versionBanners witnessCatalog 1 2).map
            (fun vb => statPull vb.2.pool_id vb.2.top.name)) ++
            witnessOtherPulls) 10 = Option.some out
      ∧ out.stats.length = 3
      ∧ out.total_top_drops = 3
      ∧ (∀ vb ∈ (sortBySeq (versionBanners witnessCatalog 1 2)).drop 3,
          ∀ r ∈ out.stats, r.character_code ≠ vb.2.top.code)) :=
  ⟨by decide, C4_version_stats_cap witnessCatalog 1 2 10 witnessOtherPulls
    (by decide) (by decide) (by decide) (by decide) (by decide)⟩
